import Mathlib

/-!
# Verification of the ipyrad assembly core against its specification

This file gives a shallow embedding, in Lean 4, of the parts of the
ipyrad RADseq assembly pipeline that the specification claims are about:

* the stage-4 joint heterozygosity/error estimator
  (`src/ipyrad/assemble/s4_joint_estimate.py`, `jointestimate.py`),
* the stage-5 consensus base caller and its filter chain
  (`src/ipyrad/assemble/consens_utils.py`),
* the within-sample clustering utilities: GBS edge trimming, PCR
  duplicate decloning, and the cluster file codec
  (`src/ipyrad/assemble/clustmap_within_denovo_utils.py`),
* the stage-7 output database writer (`src/ipyrad/assemble/s7_assemble.py`).

Python floats are modelled as exact rationals (`ℚ`), numpy byte arrays as
lists of naturals (`List ℕ`, one natural per byte), and fallible Python
code as `Except PyErr`.  Each definition is translated from the Python
source; the few places where the deciding code is not part of the source
tree (`iter_clusters`, `write_clusters`, the driver's error handling, the
IUPAC tables from `ipyrad.assemble.utils`) are modelled from the spec and
say so in their doc comment.
-/

namespace Ipyrad

/-- Python runtime errors that the embedded code can raise. -/
inductive PyErr where
  /-- A `NameError`/`UnboundLocalError`: a local variable is read before
  any assignment to it. -/
  | nameError (var : String)
  /-- A `KeyError`: a dict is indexed with a key it does not hold. -/
  | keyError (key : String)
  /-- The `IPyradError` raised by `recal_hidepth_stat` when no cluster
  reaches the statistical depth threshold (insufficient data). -/
  | insufficientData
  /-- The `IPyradError("no loci passed filtering")` raised by
  `Step7._collect_stats`. -/
  | noLociPassed
  deriving DecidableEq, Repr

instance instDecEqExcept {ε : Type u} {α : Type v} [DecidableEq ε]
    [DecidableEq α] : DecidableEq (Except ε α) := fun a b =>
  match a, b with
  | .error e1, .error e2 =>
    match decEq e1 e2 with
    | isTrue h => isTrue (congrArg Except.error h)
    | isFalse h => isFalse (fun hc => h (Except.error.inj hc))
  | .error _, .ok _ => isFalse (fun hc => Except.noConfusion hc)
  | .ok _, .error _ => isFalse (fun hc => Except.noConfusion hc)
  | .ok a1, .ok a2 =>
    match decEq a1 a2 with
    | isTrue h => isTrue (congrArg Except.ok h)
    | isFalse h => isFalse (fun hc => h (Except.ok.inj hc))

/-! ## Stage 4: the heterozygous-site likelihood (claim C2)

`s4_joint_estimate.py::nlikelihood2` builds, for a site pattern
`u = (n_C, n_A, n_T, n_G)` with total `T`, arrays

* `twos[i]  = T - u[j] - u[k]`
* `thrs[i]  = (u[j], u[j] + u[k])`

over the six pairs `j < k` (`nblik2_build`, lines 158-183), and
`lik2_calc` (lines 186-199) then computes

* `_twos = binom.pmf(twos, tots, 0.5)`
* `_thrs = binom.pmf(thrs[:,0], thrs[:,1], 2*err/3)`
* `sum(one * _twos * (_thrs / four))`.

The older scalar implementation `jointestimate.py::olikelihood2`
(lines 102-120) computes for the same pairs

* `two   = binom.pmf(tot - spair[:,0] - spair[:,1], tot, 2*errors/3)`
* `three = binom.pmf(spair[:,0], spair.sum(axis=1), 0.5)`
* `sum(one * two * (three/four))`,

which is the formula stated by the spec.  The two implementations swap
the success probabilities `0.5` and `2E/3` between the two binomials.
-/

/-- `scipy.stats.binom.pmf k n p` for natural arguments: the probability
of `k` successes in `n` independent trials with success rate `p`. -/
def binomPmf (k n : ℕ) (p : ℚ) : ℚ :=
  (n.choose k : ℚ) * p ^ k * (1 - p) ^ (n - k)

/-- The six unordered base index pairs in the order produced by
`itertools.combinations(range(4), 2)`. -/
def basePairs : List (ℕ × ℕ) :=
  [(0, 1), (0, 2), (0, 3), (1, 2), (1, 3), (2, 3)]

/-- Total depth `T = ust.sum()` of a site pattern `u`. -/
def patternTotal (u : List ℕ) : ℕ := u.sum

/-- `four = 1 - np.sum(bfreqs**2)`, shared by both implementations. -/
def fourTerm (p : List ℚ) : ℚ := 1 - (p.map (fun x => x ^ 2)).sum

/-- `s4_joint_estimate.py::nlikelihood2` (via `nblik2_build` and
`lik2_calc`) evaluated at a single site pattern `u`: the sum over base
pairs `j < k` of `2 p_j p_k · Binom(T−u_j−u_k; T, 1/2) ·
(Binom(u_j; u_j+u_k, 2E/3) / (1 − Σ p_b²))`.  Note the success rates:
`0.5` goes with the `T`-trial binomial (`_twos`) and `2E/3` with the
pair-split binomial (`_thrs`). -/
def nlikelihood2 (err : ℚ) (p : List ℚ) (u : List ℕ) : ℚ :=
  let tot := patternTotal u
  let four := fourTerm p
  (basePairs.map (fun jk =>
    (2 * p.getD jk.1 0 * p.getD jk.2 0) *
      binomPmf (tot - u.getD jk.1 0 - u.getD jk.2 0) tot (1/2) *
      (binomPmf (u.getD jk.1 0) (u.getD jk.1 0 + u.getD jk.2 0) (2 * err / 3) / four))).sum

/-- `jointestimate.py::olikelihood2` evaluated at a single site pattern
`u`: the sum over base pairs `j < k` of `2 p_j p_k ·
Binom(T−u_j−u_k; T, 2E/3) · (Binom(u_j; u_j+u_k, 1/2) / (1 − Σ p_b²))`. -/
def olikelihood2 (err : ℚ) (p : List ℚ) (u : List ℕ) : ℚ :=
  let tot := patternTotal u
  let four := fourTerm p
  (basePairs.map (fun jk =>
    (2 * p.getD jk.1 0 * p.getD jk.2 0) *
      binomPmf (tot - u.getD jk.1 0 - u.getD jk.2 0) tot (2 * err / 3) *
      (binomPmf (u.getD jk.1 0) (u.getD jk.1 0 + u.getD jk.2 0) (1/2) / four))).sum

/-- The heterozygous likelihood exactly as the spec states it:
`L2(u; E) = Σ_{b<b'} [2 p_b p_{b'}] · Binom(T−n_b−n_{b'}; T, 2E/3) ·
[Binom(n_b; n_b+n_{b'}, 1/2) / (1 − Σ_b p_b²)]`. -/
def lik2Spec (err : ℚ) (p : List ℚ) (u : List ℕ) : ℚ :=
  (basePairs.map (fun jk =>
    (2 * p.getD jk.1 0 * p.getD jk.2 0) *
      binomPmf (patternTotal u - u.getD jk.1 0 - u.getD jk.2 0) (patternTotal u) (2 * err / 3) *
      (binomPmf (u.getD jk.1 0) (u.getD jk.1 0 + u.getD jk.2 0) (1/2) / fourTerm p))).sum

/-- A concrete site pattern `(n_C, n_A, n_T, n_G) = (4, 0, 0, 0)` used to
separate the two implementations. -/
def exPattern : List ℕ := [4, 0, 0, 0]

/-- Uniform base frequencies `(1/4, 1/4, 1/4, 1/4)`. -/
def exFreqs : List ℚ := [1/4, 1/4, 1/4, 1/4]

/-! ## Stage 4: cluster depth screening and stacking (claims C3, C6)

`s4_joint_estimate.py::recal_hidepth_stat` (lines 202-232) streams the
sample's cluster file, computes per-cluster depths (sum of the `size=N`
fields) and first-sequence lengths, masks clusters with depth at or
above `min_depth_statistical`, and computes
`maxfrag = int(4 + mean + 2*std)` over the masked lengths.  When **no**
cluster passes the mask the masked length array is empty, `mean()` is
`nan`, `int(nan)` raises, and the `except` re-raises an `IPyradError`
("No clusts with depth sufficient for statistical basecalling...").

`get_stackarray` (lines 235-310) then iterates the clusters again and,
for each cluster passing the mask, executes
`stacked[nclust, :catg.shape[0], :] = catg` (line 300) and `nclust += 1`
— but `nclust` (and the loop flag `done` on line 304) is never
initialized anywhere in the function, unlike the older
`jointestimate.py::stackarray` which sets `nclust = 0; done = 0` (lines
265-266).  The first selected cluster therefore raises a
`NameError`/`UnboundLocalError`.
-/

/-- A dereplicated read: its `size=N` multiplicity and sequence bytes. -/
structure DerepRead where
  size : ℕ
  seq : List ℕ
  deriving DecidableEq, Repr

/-- A cluster of a stage-3 cluster file: the dereplicated reads
(seed first). -/
structure SCluster where
  reads : List DerepRead
  deriving DecidableEq, Repr

/-- Cluster depth: `sum(sizes)` over the parsed `size=N` header fields. -/
def clusterDepth (c : SCluster) : ℕ := (c.reads.map (fun r => r.size)).sum

/-- `s4_joint_estimate.py::recal_hidepth_stat`: returns the per-cluster
mask `depth >= min_depth_statistical`.  The `maxfrag` value
(`int(4 + mean + 2*std)` over masked lengths) is not modelled — no claim
depends on its value — but its failure mode is: when the mask selects no
cluster the masked length array is empty, `mean()` is `nan`, `int(nan)`
raises, and the function re-raises `IPyradError` (insufficient data). -/
def recal_hidepth_stat (clusters : List SCluster) (statThreshold : ℕ) :
    Except PyErr (List Bool) :=
  let statMask := clusters.map (fun c => decide (statThreshold ≤ clusterDepth c))
  if statMask.any id then .ok statMask else .error .insufficientData

/-- `s4_joint_estimate.py::get_stackarray`: after the depth screening,
the fill loop skips masked-out clusters; on the first cluster with
`stat_mask[idx]` true it reaches `stacked[nclust, :catg.shape[0], :]`
(line 300) where the local `nclust` has never been assigned, raising a
`NameError`.  (If no cluster passed, `recal_hidepth_stat` has already
raised instead, so the function never returns normally.) -/
def get_stackarray (clusters : List SCluster) (statThreshold : ℕ) :
    Except PyErr (List (List ℕ)) :=
  match recal_hidepth_stat clusters statThreshold with
  | .error e => .error e
  | .ok statMask =>
      if statMask.any id then .error (.nameError "nclust") else .ok []

/-- Outcome of stage 4 for one sample, as the spec describes it:
either an `(H, E)` estimate is attempted, or the sample is skipped with
a recorded reason. -/
inductive SampleStatus where
  | proceed
  | skipped (reason : String)
  deriving DecidableEq, Repr

/-- Modelled from the spec: the stage-4 driver's handling of the
*InsufficientData* signal.  The driver machinery (`BaseStep`,
`AssemblyProgressBar`) is not under `src/`; per the spec, a sample whose
depth screening signals *InsufficientData* "is skipped (not fatal) for
the (H,E) estimator" with the reason recorded.  The signal itself is the
`IPyradError` raised by `recal_hidepth_stat`. -/
def step4_screen_sample (clusters : List SCluster) (statThreshold : ℕ) :
    SampleStatus :=
  match recal_hidepth_stat clusters statThreshold with
  | .error _ =>
      .skipped "No clusts with depth sufficient for statistical basecalling."
  | .ok _ => .proceed

/-- Modelled from the spec: the stage-4 driver screens every sample
independently; no sample's *InsufficientData* signal aborts the stage
(the screen is a total function into per-sample statuses). -/
def step4_screen (samples : List (List SCluster)) (statThreshold : ℕ) :
    List SampleStatus :=
  samples.map (fun clusters => step4_screen_sample clusters statThreshold)

/-- `s7_assemble.py::Step7._collect_stats`, lines 268-270: after merging
chunk results, `if not ...nloci_after_filtering: raise IPyradError("no
loci passed filtering")` — zero surviving loci is fatal at stage 7. -/
def collect_stats_check (nlociAfterFiltering : ℕ) : Except PyErr Unit :=
  if nlociAfterFiltering = 0 then .error .noLociPassed else .ok ()

/-! ## Stage 7: the output database writer (claim C4)

`s7_assemble.py::Step7._write_databases` (lines 410-418) reads:

```python
jobs = {0: self.lbview.apply(remote_fill_loci, self.data)}
jobs = {1: self.lbview.apply(remote_fill_seqs, self.data)}
# jobs = {2: self.lbview.apply(fill_snp_array, self.data)}
prog = AssemblyProgressBar(jobs, msg, 7, self.quiet)
```

Both `lbview.apply` calls submit their job when the dict literal is
evaluated, but the second literal *rebinds* `jobs`, so only the seqs job
is handed to the progress bar; the snps job is commented out and never
submitted, although `remote_fill_snps` is defined (lines 495-497), the
module docstring documents the `.snps.hdf5` layout, and
`Step7.__init__` registers `outfiles['snps_database']` (line 95). -/

/-- The three canonical stage-7 outputs named by the spec. -/
inductive OutJob where
  | loci
  | seqs
  | snps
  deriving DecidableEq, Repr

/-- The jobs a run of `_write_databases` interacts with: those submitted
to the cluster view, and those the progress bar waits on and checks. -/
structure DatabasesJobs where
  submitted : List OutJob
  awaited : List OutJob
  deriving DecidableEq, Repr

/-- `s7_assemble.py::Step7._write_databases`, lines 410-418:
`jobs = {0: apply(remote_fill_loci)}` submits the loci job;
`jobs = {1: apply(remote_fill_seqs)}` submits the seqs job and rebinds
the dict; the snps line is commented out; the progress bar receives the
final value of `jobs`. -/
def write_databases : DatabasesJobs :=
  let jobs0 : List (ℕ × OutJob) := [(0, OutJob.loci)]
  let jobs1 : List (ℕ × OutJob) := [(1, OutJob.seqs)]
  { submitted := jobs0.map Prod.snd ++ jobs1.map Prod.snd
    awaited := jobs1.map Prod.snd }

/-! ## Stage 5: the consensus base caller (claims C1, C5, C7)

`consens_utils.py::Processor` streams aligned clusters through a chain
of generators: `iter_process_chunks` (expand dereplicated rows),
`iter_mask_repeats`, `iter_filter_mindepth`, `iter_build_consens`
(per-site genotype calls via `new_base_caller`), `iter_filter_heteros`,
`iter_filter_alleles`, and `collect_data` (per-site C,A,T,G depths).

Sequences are byte arrays: `A=65, C=67, G=71, T=84, N=78, -=45, n=110`,
heterozygote codes `R=82, K=75, S=83, Y=89, W=87, M=77` (the byte set
tested by `iter_filter_heteros`, lines 256-263).  A cluster is modelled
as its parsed reads `(size, sequence-bytes)`; a matrix as its list of
rows. -/

/-- Modelled from the spec: the IUPAC heterozygote table `TRANS` of
`ipyrad.assemble.utils` (not under `src/`).  Maps an unordered pair of
base bytes to the ambiguity byte: `R=A/G, K=G/T, S=C/G, Y=C/T, W=A/T,
M=A/C` (spec glossary), using the ambiguity bytes that
`iter_filter_heteros` tests for. -/
def trans (p q : ℕ) : ℕ :=
  if (p = 65 ∧ q = 71) ∨ (p = 71 ∧ q = 65) then 82      -- R = A/G
  else if (p = 71 ∧ q = 84) ∨ (p = 84 ∧ q = 71) then 75 -- K = G/T
  else if (p = 67 ∧ q = 71) ∨ (p = 71 ∧ q = 67) then 83 -- S = C/G
  else if (p = 67 ∧ q = 84) ∨ (p = 84 ∧ q = 67) then 89 -- Y = C/T
  else if (p = 65 ∧ q = 84) ∨ (p = 84 ∧ q = 65) then 87 -- W = A/T
  else if (p = 65 ∧ q = 67) ∨ (p = 67 ∧ q = 65) then 77 -- M = A/C
  else 0

/-- Modelled from the spec: the IUPAC decoding table `DCONS` of
`ipyrad.assemble.utils` (not under `src/`): the two base bytes encoded
by an ambiguity byte (a plain base decodes to itself twice). -/
def dcons (b : ℕ) : ℕ × ℕ :=
  if b = 82 then (65, 71)
  else if b = 75 then (71, 84)
  else if b = 83 then (67, 71)
  else if b = 89 then (67, 84)
  else if b = 87 then (65, 84)
  else if b = 77 then (65, 67)
  else (b, b)

/-- Largest element of a list of naturals (`0` for the empty list; the
Python `max(...)` calls modelled with this are all guarded against the
empty case). -/
def pyMax (l : List ℕ) : ℕ := l.foldl max 0

/-- Smallest element of a nonempty list of naturals (`trim.min()`). -/
def pyMin (l : List ℕ) : ℕ :=
  match l with
  | [] => 0
  | x :: xs => xs.foldl min x

/-- First index below `n` at which `f` attains its maximum over
`[0, n)`: the semantics of `np.argmax` on an array of length `n` (a
strictly greater value is needed to displace an earlier index). -/
def argmaxBelow (f : ℕ → ℕ) (n : ℕ) : ℕ :=
  (List.range n).foldl (fun best i => if f i > f best then i else best) 0

/-- `consens_utils.py::get_binom` (lines 531-554): posterior test of
heterozygous versus homozygous call from the two major base counts.
Returns `(hetprob > homoa, bestprob)` where `bestprob` is the largest of
the three prior-weighted probabilities normalized by their sum. -/
def get_binom (base1 base2 : ℕ) (estErr estHet : ℚ) : Bool × ℚ :=
  let priorHomo := (1 - estHet) / 2
  let priorHete := estHet
  let bsum := base1 + base2
  let hetprob := ((bsum.choose base1 : ℚ) / 2 ^ bsum) * priorHete
  let homoa := binomPmf base2 bsum estErr * priorHomo
  let homob := binomPmf base1 bsum estErr * priorHomo
  let bestprob := max (max homoa homob) hetprob / (homoa + homob + hetprob)
  (hetprob > homoa, bestprob)

/-- The column masking of `new_base_caller` lines 460-472: the bytes of
a column that are neither `N` (78) nor `-` (45). -/
def colScreen (col : List ℕ) : List ℕ :=
  col.filter (fun b => ¬ (b = 78 ∨ b = 45))

/-- The allele-frequency extraction of `new_base_caller` lines 477-493:
`np.bincount(col, minlength=79)` with `counts[78] = counts[45] = 0`,
then three rounds of `np.argmax` with zeroing, producing
`(pbase, nump, qbase, numq, rbase, numr)`.  `np.bincount` has length
`max(79, col.max()+1)` and `np.argmax` returns the first index
attaining the maximum. -/
def colStats (col : List ℕ) : ℕ × ℕ × ℕ × ℕ × ℕ × ℕ :=
  let counts : ℕ → ℕ := fun b => if b = 78 ∨ b = 45 then 0 else col.count b
  let size := max 79 (pyMax col + 1)
  let pbase := argmaxBelow counts size
  let nump := counts pbase
  let counts1 : ℕ → ℕ := fun b => if b = pbase then 0 else counts b
  let qbase := argmaxBelow counts1 size
  let numq := counts1 qbase
  let counts2 : ℕ → ℕ := fun b => if b = qbase then 0 else counts1 b
  let rbase := argmaxBelow counts2 size
  let numr := counts2 rbase
  (pbase, nump, qbase, numq, rbase, numr)

/-- One column of the loop body of `consens_utils.py::new_base_caller`
(lines 457-527).  Returns the called byte and whether this column sets
the tri-allele flag.

The source masks `N` (78) and `-` (45); emits `N` when the non-masked
depth is below the majority threshold; emits the base itself when all
non-masked bytes agree; otherwise takes the two most frequent bases
`p, q` from the bincount, flags a tri-allele when the third base
carries at least 15 % of the top three, emits `N` when `n_p+n_q` is
below the majority threshold, rescales to 500 on overflow — and then,
because the majority-rule branch at lines 512-516 does **not**
`continue`, unconditionally runs `get_binom` at lines 519-527,
overwriting whatever the majority-rule branch assigned.  The final
value of `cons[cidx]` is therefore always the statistical call. -/
def new_base_caller_col (col : List ℕ) (mindepthMj mindepthSt : ℕ)
    (estHet estErr : ℚ) : ℕ × Bool :=
  let masked := colScreen col
  if masked.length < mindepthMj then (78, false)
  else if masked.all (fun b => b = masked.headD 0) then (masked.headD 0, false)
  else
    let st := colStats col
    let pbase := st.1
    let nump := st.2.1
    let qbase := st.2.2.1
    let numq := st.2.2.2.1
    let numr := st.2.2.2.2.2
    let tri := decide ((15 : ℚ)/100 ≤ (numr : ℚ) / ((nump : ℚ) + numq + numr))
    let bidepth := nump + numq
    if bidepth < mindepthMj then (78, tri)
    else
      let nump2 := if 500 < bidepth then 500 * nump / bidepth else nump
      let numq2 := if 500 < bidepth then 500 * numq / bidepth else numq
      -- lines 512-516 assign a majority-rule call when
      -- `bidepth < mindepth_st`, but without a `continue`/`else`; the
      -- statistical call below always executes and overwrites it, so the
      -- assignment is a dead store:
      let _deadMajorityStore :=
        if bidepth < mindepthSt then
          (if nump2 = numq2 then trans pbase qbase else pbase)
        else 78
      let gb := get_binom nump2 numq2 estErr estHet
      if gb.2 < 95/100 then (78, tri)
      else if gb.1 then (trans pbase qbase, tri)
      else (pbase, tri)

/-- `consens_utils.py::new_base_caller` (lines 446-528): call every
column of the aligned matrix and accumulate the sticky tri-allele
flag. -/
def new_base_caller (rows : List (List ℕ)) (mindepthMj mindepthSt : ℕ)
    (estHet estErr : ℚ) : List ℕ × Bool :=
  let ncols := (rows.headD []).length
  let calls := (List.range ncols).map (fun j =>
    new_base_caller_col (rows.map (fun r => r.getD j 0))
      mindepthMj mindepthSt estHet estErr)
  (calls.map Prod.fst, calls.any Prod.snd)

/-- The per-site genotype call the claim dictates for an in-between
depth column: majority rule, `p` when `n_p > n_q`, else the IUPAC
heterozygote for `{p, q}`. -/
def majority_rule_call (nump numq pbase qbase : ℕ) : ℕ :=
  if numq < nump then pbase else trans pbase qbase

/-- The parameter fields of the `Processor` that the filter chain reads
(`Processor.__init__`, lines 58-99, and the `data.params` accesses in
the generators).  Rationals model the float-valued params. -/
structure ConsParams where
  minDepthMajrule : ℕ
  minDepthStatistical : ℕ
  maxDepth : ℕ
  filterMinTrimLen : ℕ
  maxHet : ℚ
  maxN : ℚ
  maxAlleles : ℕ
  heteroEst : ℚ
  errorEst : ℚ

/-- A consensus locus as `collect_data` (lines 353-383) stores it: the
called sequence, the per-site `(C, A, T, G)` depth table, and the
inferred allele count. -/
structure EmittedLocus where
  consens : List ℕ
  catg : List (List ℕ)
  nalleles : ℕ
  deriving DecidableEq, Repr

/-- `Processor.iter_process_chunks` (lines 127-166): expand each
dereplicated read to `size` identical rows, building the matrix `sarr`.
The source also computes `sarr[:, :self.maxlen]` (line 146) and
`sarr[:65_500, :self.maxlen]` (line 149) into a local variable `seqs`,
but then constructs the `Locus` from the **untrimmed** `sarr`
(line 165, `Locus(names=names, seqs=sarr, ...)`); both caps are dead
stores, so this function performs no row or column capping. -/
def locus_rows (reads : List (ℕ × List ℕ)) : List (List ℕ) :=
  reads.flatMap (fun rs => List.replicate rs.1 rs.2)

/-- The intended row/column capping of `iter_process_chunks` lines
146-149 as written (at most 65,500 rows, at most `maxlen` columns) —
the value the dead local `seqs` holds.  Kept for comparison with
`locus_rows`. -/
def locus_rows_capped (reads : List (ℕ × List ℕ)) (maxlen : ℕ) : List (List ℕ) :=
  ((locus_rows reads).take 65500).map (fun r => r.take maxlen)

/-- Number of elements of a row-major matrix (`ndarray.size`). -/
def npSize (rows : List (List ℕ)) : ℕ := (rows.map List.length).sum

/-- Column `j` of a row-major matrix. -/
def colVals (rows : List (List ℕ)) (j : ℕ) : List ℕ :=
  rows.map (fun r => r.getD j 0)

/-- `Processor.iter_mask_repeats` (lines 168-195), denovo branch: keep
columns whose dash fraction is below 0.9, convert remaining dashes to
`N` (78), force any column containing the pair separator `n` (110)
wholly to 110, and filter the cluster (as *depth*) when no elements
remain. -/
def mask_repeats (rows : List (List ℕ)) : Option (List (List ℕ)) :=
  let nrows := rows.length
  let ncols := (rows.headD []).length
  let keep := (List.range ncols).filter
    (fun j => decide ((((colVals rows j).count 45 : ℚ)) / (nrows : ℚ) < 9/10))
  let rows1 := rows.map (fun r =>
    keep.map (fun j => if r.getD j 0 = 45 then 78 else r.getD j 0))
  let spacerCol := fun j2 => (colVals rows1 j2).any (fun b => b = 110)
  let rows2 := rows1.map (fun r =>
    (List.range keep.length).map (fun j2 => if spacerCol j2 then 110 else r.getD j2 0))
  if npSize rows2 ≠ 0 then some rows2 else none

/-- `Processor.iter_filter_mindepth` (lines 197-206): require
`min_depth_majrule ≤ nrows ≤ max_depth`, else filter as *depth*. -/
def filter_mindepth (P : ConsParams) (rows : List (List ℕ)) :
    Option (List (List ℕ)) :=
  if P.minDepthMajrule ≤ rows.length ∧ rows.length ≤ P.maxDepth
  then some rows else none

/-- `Processor.iter_build_consens` (lines 208-251): call the genotypes,
then `trim = np.where(consens != 78)[0]`; when `not trim.any()` — i.e.
every *index* in `trim` is zero, which covers both an all-`N` consensus
(empty `trim`) and a consensus whose only called site is column 0 — the
source executes `self.filters["mindepth"] += 1`, but the filters dict
(lines 94-99) only has keys `depth`, `maxh`, `maxn`, `maxalleles`, so
this raises a `KeyError`.  Otherwise the tri-allele filter applies
(*maxalleles* when marked and `max_alleles_consens < 3`), and the
consensus and matrix are trimmed to `[trim.min(), trim.max()+1)`. -/
def build_consens (P : ConsParams) (rows : List (List ℕ)) :
    Except PyErr (Option (List ℕ × List (List ℕ))) :=
  let called := new_base_caller rows P.minDepthMajrule P.minDepthStatistical
    P.heteroEst P.errorEst
  let consens := called.1
  let triallele := called.2
  let trim := (List.range consens.length).filter (fun j => consens.getD j 0 ≠ 78)
  if trim.all (fun j => j = 0) then .error (.keyError "mindepth")
  else if triallele ∧ P.maxAlleles < 3 then .ok none
  else
    let ltrim := pyMin trim
    let rtrim := pyMax trim + 1
    .ok (some ((consens.drop ltrim).take (rtrim - ltrim),
      rows.map (fun r => (r.drop ltrim).take (rtrim - ltrim))))

/-- The heterozygote ambiguity bytes tested by `iter_filter_heteros`
(lines 256-263): `R K S Y W M`. -/
def isHeteroByte (b : ℕ) : Bool :=
  b = 82 ∨ b = 75 ∨ b = 83 ∨ b = 89 ∨ b = 87 ∨ b = 77

/-- `Processor.iter_filter_heteros` (lines 253-276): compute the
heterozygous site indices; filter as *maxh* when their count exceeds
`len · max_h_consens`, as *maxn* when the length is below
`filter_min_trim_len` or the `N` count exceeds `len · max_n_consens`. -/
def filter_heteros (P : ConsParams) (consens : List ℕ) : Option (List ℕ) :=
  let hidx := (List.range consens.length).filter
    (fun j => isHeteroByte (consens.getD j 0))
  if ((hidx.length : ℚ)) > (consens.length : ℚ) * P.maxHet then none
  else if consens.length < P.filterMinTrimLen then none
  else if ((consens.count 78 : ℚ)) > (consens.length : ℚ) * P.maxN then none
  else some hidx

/-- Distinct elements of a list in first-occurrence order (the key set
of a Python `Counter` built from the list). -/
def firstKeys (l : List (List ℕ)) : List (List ℕ) :=
  l.foldl (fun acc x => if x ∈ acc then acc else acc ++ [x]) []

/-- `Processor.iter_filter_alleles` (lines 278-351): with one
heterozygous site, two alleles; otherwise restrict rows to the
heterozygous columns, drop rows containing `N`, drop rows whose byte at
some site is neither of the two decoded calls, and count distinct
haplotype patterns.  Accept when at most `max_alleles_consens` remain;
otherwise retry after dropping patterns below 10 % of the rows; filter
as *maxalleles* when still too many. -/
def filter_alleles (P : ConsParams) (consens : List ℕ)
    (rows : List (List ℕ)) (hidx : List ℕ) : Option ℕ :=
  if hidx.length = 1 then some 2
  else
    let harray0 := rows.map (fun r => hidx.map (fun j => r.getD j 0))
    let harray1 := harray0.filter (fun hr => ¬ hr.contains 78)
    let calls0 := hidx.map (fun j => (dcons (consens.getD j 0)).1)
    let calls1 := hidx.map (fun j => (dcons (consens.getD j 0)).2)
    let harray2 := harray1.filter (fun hr =>
      (List.range hidx.length).all (fun i =>
        hr.getD i 0 = calls0.getD i 0 ∨ hr.getD i 0 = calls1.getD i 0))
    let ccx := (firstKeys harray2).map (fun k => (k, harray2.count k))
    if ccx.length ≤ P.maxAlleles then some ccx.length
    else
      let alleles := ccx.filter (fun kc =>
        decide ((1 : ℚ)/10 ≤ (kc.2 : ℚ) / (rows.length : ℚ)))
      if alleles.length ≤ P.maxAlleles then some alleles.length
      else none

/-- `Processor.collect_data` (lines 353-383): the stored `catg` table —
one row per consensus site holding the column's counts of `C=67, A=65,
T=84, G=71`. -/
def collect_catg (rows : List (List ℕ)) (consensLen : ℕ) : List (List ℕ) :=
  (List.range consensLen).map (fun j =>
    [(colVals rows j).count 67, (colVals rows j).count 65,
     (colVals rows j).count 84, (colVals rows j).count 71])

/-- The per-cluster pipeline of `Processor` as composed by the generator
chain `iter_process_chunks → iter_mask_repeats → iter_filter_mindepth →
iter_build_consens → iter_filter_heteros → iter_filter_alleles →
collect_data` (denovo branch).  Returns `.ok none` when some filter
drops the cluster, `.ok (some locus)` when a consensus locus is
emitted, and `.error` when the Python code raises. -/
def process_locus (P : ConsParams) (reads : List (ℕ × List ℕ)) :
    Except PyErr (Option EmittedLocus) :=
  let rows0 := locus_rows reads
  match mask_repeats rows0 with
  | none => .ok none
  | some rows1 =>
    match filter_mindepth P rows1 with
    | none => .ok none
    | some rows2 =>
      match build_consens P rows2 with
      | .error e => .error e
      | .ok none => .ok none
      | .ok (some cr) =>
        match filter_heteros P cr.1 with
        | none => .ok none
        | some hidx =>
          match filter_alleles P cr.1 cr.2 hidx with
          | none => .ok none
          | some nall =>
            .ok (some { consens := cr.1,
                        catg := collect_catg cr.2 cr.1.length,
                        nalleles := nall })

/-- A whole chunk, as driven by `collect_data`'s `for` loop over the
generator chain: clusters are processed in order and an uncaught Python
exception aborts the remaining clusters of the chunk. -/
def process_chunk (P : ConsParams) (chunk : List (List (ℕ × List ℕ))) :
    Except PyErr (List EmittedLocus) :=
  match chunk with
  | [] => .ok []
  | c :: rest =>
    match process_locus P c with
    | .error e => .error e
    | .ok none => process_chunk P rest
    | .ok (some loc) =>
      match process_chunk P rest with
      | .error e => .error e
      | .ok locs => .ok (loc :: locs)

/-- Concrete processor parameters used by the concrete-cluster
theorems: majority threshold 5, statistical threshold 10, and the other
params permissive. -/
def exConsParams : ConsParams :=
  { minDepthMajrule := 5, minDepthStatistical := 10, maxDepth := 100000,
    filterMinTrimLen := 1, maxHet := 1/100, maxN := 1/100, maxAlleles := 2,
    heteroEst := 1/100, errorEst := 1/1000 }

/-- A cluster of six reads over one site: four `A` and two `N`.  Its
non-masked depth (4) is below the majority threshold (5), so its
consensus is all `N`. -/
def exBadCluster : List (ℕ × List ℕ) :=
  [(1, [65]), (1, [65]), (1, [65]), (1, [65]), (1, [78]), (1, [78])]

/-- A healthy cluster: five identical `AA` reads. -/
def exGoodCluster : List (ℕ × List ℕ) :=
  [(1, [65, 65]), (1, [65, 65]), (1, [65, 65]), (1, [65, 65]), (1, [65, 65])]

/-- A cluster holding a single dereplicated `AA` read with multiplicity
65,501 — one more read than the depth cap the spec states. -/
def exDeepCluster : List (ℕ × List ℕ) := [(65501, [65, 65])]

/-! ## Stage 3: GBS edge trimming (claim C8)

`clustmap_within_denovo_utils.py::gbs_trim` (lines 828-886) receives an
aligned cluster as a list of `"header\nsequence"` strings.  We model
each row at the parsed level: the header as its `;`-separated fields
(what Python's `rsplit(";")` yields) and the sequence as characters. -/

/-- A row of an aligned cluster: header fields (split on `;`) and the
aligned sequence. -/
structure ARow where
  header : List String
  seq : List Char
  deriving DecidableEq, Repr

/-- The first character of the last `;`-field of a header:
`i.rsplit(";")[-1][0]`, which is `*` for the seed and `-` for
reverse-strand hits. -/
def oriChar (r : ARow) : Char := (r.header.getLastD "").toList.headD ' '

/-- Python's `[bool, ...].index(True)`: the first index holding `true`,
`none` modelling the `ValueError` on a list without one. -/
def pyIndexTrue (l : List Bool) : Option ℕ := l.findIdx? id

/-- `clustmap_within_denovo_utils.py::gbs_trim` (lines 828-886):
`leftmost` is the first non-dash position of the seed row (the row
whose orientation field is `*`); `subright` is the **maximum** over
reverse-strand hits of their trailing-dash counts (`max([...])`, line
871), 0 when there are none; `rightmost = len(seed) - subright`.  When
`rightmost > leftmost` every row is trimmed to `[leftmost, rightmost)`;
otherwise every row body becomes the sentinel `NNN`.  `none` models the
`IndexError`/`ValueError` paths (no seed row, or `.index(True)` on an
all-dash sequence). -/
def gbs_trim (align1 : List ARow) : Option (List ARow) := do
  let seed ← align1.find? (fun r => oriChar r = '*')
  let leftmost ← pyIndexTrue (seed.seq.map (fun c => c ≠ '-'))
  let revs := align1.filter (fun r => oriChar r = '-')
  let subrights ← revs.mapM (fun r => pyIndexTrue (r.seq.reverse.map (fun c => c ≠ '-')))
  let subright := if revs.isEmpty then 0 else pyMax subrights
  let rightmost := seed.seq.length - subright
  if leftmost < rightmost then
    some (align1.map (fun r =>
      { header := r.header, seq := (r.seq.drop leftmost).take (rightmost - leftmost) }))
  else
    some (align1.map (fun r => { header := r.header, seq := ['N', 'N', 'N'] }))

/-- Length of the leading run of dashes of a sequence, defined by
`takeWhile` (the specification-side description of "the leftmost column
where the row has a non-gap"). -/
def leadingDashes (s : List Char) : ℕ := (s.takeWhile (fun c => c = '-')).length

/-- Number of trailing dashes of a sequence. -/
def trailingDashes (s : List Char) : ℕ := leadingDashes s.reverse

/-! ## Stage 3: PCR-duplicate decloning (claim C9)

`clustmap_within_denovo_utils.py::declone_clusters` (lines 748-825)
parses each header into `name;tag;size=N;...` fields.  We model a row at
the parsed level.  The function's write-back loop (lines 813-821) keeps,
for every duplicate tag, the **first** row carrying that tag, with its
`size=` field rewritten to the sum over the tag group; the `updated`
dict computed at lines 780-811 (which also keeps the first tuple of
each group) is never read. -/

/-- A parsed row of an aligned cluster with a PCR-duplicate tag. -/
structure TagRow where
  name : String
  tag : String
  size : ℕ
  seq : String
  deriving DecidableEq, Repr

/-- Sum of the `size` fields over the rows carrying tag `t`
(`tagsize[tag]`, lines 783-787). -/
def tagSum (rows : List TagRow) (t : String) : ℕ :=
  ((rows.filter (fun r => r.tag = t)).map (fun r => r.size)).sum

/-- The write-back loop of `declone_clusters` (lines 813-821): walk the
rows in order with a `seen` set of tags; emit a row (with its size
rewritten to the tag-group sum) only on the first occurrence of its
tag. -/
def declone_go (all : List TagRow) : List TagRow → List String → List TagRow
  | [], _ => []
  | r :: rest, seen =>
    if r.tag ∈ seen then declone_go all rest (r.tag :: seen)
    else { name := r.name, tag := r.tag, size := tagSum all r.tag, seq := r.seq } ::
      declone_go all rest (r.tag :: seen)

/-- `declone_clusters` applied to one locus: when no tag repeats
(`len(set(tags)) == len(tags)`, line 775) the locus is appended
unchanged; otherwise the write-back loop rebuilds it. -/
def declone_locus (rows : List TagRow) : List TagRow :=
  if (rows.map (fun r => r.tag)).Nodup then rows
  else declone_go rows rows []

/-- `clustmap_within_denovo_utils.py::declone_clusters` (lines 748-825)
over a chunk of aligned loci (the returned read-count statistics are not
modelled). -/
def declone_clusters (aligned : List (List TagRow)) : List (List TagRow) :=
  aligned.map declone_locus

/-- The amended contract, stated independently of the source recursion:
keep the first-listed row of every tag group, rewriting its size to the
group total (its own size plus the sizes of the later rows of its
group), and drop the later rows of the group. -/
def keepFirstPerTag : List TagRow → List TagRow
  | [] => []
  | r :: rest =>
    { name := r.name, tag := r.tag, size := r.size + tagSum rest r.tag, seq := r.seq } ::
      keepFirstPerTag (rest.filter (fun x => x.tag ≠ r.tag))
termination_by l => l.length
decreasing_by
  simp only [List.length_cons]
  exact Nat.lt_succ_of_le (List.length_filter_le _ _)

/-! ## The cluster file codec (claim C10)

A cluster file is a sequence of `(header, sequence)` line pairs with the
literal line `//` written twice between clusters (`build_clusters`,
lines 356-487, joins cluster blocks with `"\n//\n//\n"` and writes a
trailing separator after the matched-seed section).  The reader
`iter_clusters` is imported by `consens_utils.py` (line 32) and
`s4_joint_estimate.py` (line 20) but its body is not under `src/`, so it
is modelled from the spec (§4.1): a stream of clusters, each exposed as
`(headers, sequences)` with the leading `>` stripped from headers, and a
trailing separator tolerated.  A file is modelled as its list of lines,
each line a list of characters. -/

/-- The separator line `//`. -/
def sepLine : List Char := ['/', '/']

/-- A cluster as the codec exposes it: header lines (without the
leading `>`) and sequence lines. -/
structure RCluster where
  headers : List (List Char)
  seqs : List (List Char)
  deriving DecidableEq, Repr

/-- Interleave header and sequence lines pairwise. -/
def interleave : List (List Char) → List (List Char) → List (List Char)
  | [], _ => []
  | _, [] => []
  | h :: hs, s :: ss => h :: s :: interleave hs ss

/-- The line block of one cluster: `>header` and sequence lines
alternating. -/
def clusterLines (c : RCluster) : List (List Char) :=
  interleave (c.headers.map (fun h => '>' :: h)) c.seqs

/-- Modelled from the spec: `write_clusters(path, stream)` (§4.1) with
the separator contract realized by `build_clusters`: each cluster block
is followed by the two separator lines (`"\n//\n//\n".join(...)` plus a
trailing separator). -/
def write_clusters (cs : List RCluster) : List (List Char) :=
  cs.flatMap (fun c => clusterLines c ++ [sepLine, sepLine])

/-- Even-position elements of a list (0, 2, 4, ...). -/
def evenPositions : List α → List α
  | [] => []
  | [x] => [x]
  | x :: _ :: xs => x :: evenPositions xs

/-- Odd-position elements of a list (1, 3, 5, ...). -/
def oddPositions (l : List α) : List α := evenPositions l.tail

/-- Rebuild a cluster from its accumulated lines: even lines are
headers (leading `>` stripped), odd lines are sequences. -/
def mkCluster (lines : List (List Char)) : RCluster :=
  { headers := (evenPositions lines).map (fun l => l.drop 1)
    seqs := oddPositions lines }

/-- Modelled from the spec: the accumulation loop of
`iter_clusters(path)` — gather lines until a `//` line, emit the
accumulated cluster (ignoring repeated/trailing separators), and emit a
final unterminated cluster at end of file. -/
def iter_clusters_go : List (List Char) → List (List Char) → List RCluster
  | [], acc => if acc.isEmpty then [] else [mkCluster acc.reverse]
  | line :: rest, acc =>
    if line = sepLine then
      if acc.isEmpty then iter_clusters_go rest []
      else mkCluster acc.reverse :: iter_clusters_go rest []
    else iter_clusters_go rest (line :: acc)

/-- Modelled from the spec: `iter_clusters(path)` → the stream of
clusters of a cluster file. -/
def iter_clusters (lines : List (List Char)) : List RCluster :=
  iter_clusters_go lines []

/-- Well-formedness of a cluster handed to the writer: headers and
sequences pair up, the cluster is nonempty, and no sequence line spells
the separator (header lines cannot: they are written with a leading
`>`). -/
def GoodCluster (c : RCluster) : Prop :=
  c.headers.length = c.seqs.length ∧ c.headers ≠ [] ∧ ∀ s ∈ c.seqs, s ≠ sepLine

instance : DecidablePred GoodCluster := fun c => by
  unfold GoodCluster; infer_instance

/-- Proof-intermediate form of the write-back loop: keep the first row
of each tag group but draw the rewritten sizes from a fixed row list
`all`. -/
def keepFirstSized (all : List TagRow) : List TagRow → List TagRow
  | [] => []
  | r :: rest =>
    { name := r.name, tag := r.tag, size := tagSum all r.tag, seq := r.seq } ::
      keepFirstSized all (rest.filter (fun x => x.tag ≠ r.tag))
termination_by l => l.length
decreasing_by
  simp only [List.length_cons]
  exact Nat.lt_succ_of_le (List.length_filter_le _ _)

/-! ## Theorems -/

/-- C4: the claim says all three canonical stage-7 outputs (`.loci`,
seqs, snps) are produced.  In `Step7._write_databases` the snps job is
commented out — it is never even submitted — and the dict rebinding
means only the seqs job is awaited and checked, so the snps table is
not produced (and the loci job's outcome is never checked). -/
theorem c4_snps_table_never_written :
    OutJob.snps ∉ write_databases.submitted ∧
    OutJob.snps ∉ write_databases.awaited ∧
    write_databases.awaited = [OutJob.seqs] := by
  decide

/-- C3: the claim says `get_stackarray` terminates normally for a
sample with at least one cluster at or above the statistical threshold.
It cannot: the fill loop's `nclust` (line 300) is never initialized, so
the first selected cluster raises a `NameError`. -/
theorem c3_get_stackarray_raises (clusters : List SCluster) (statT : ℕ)
    (h : ∃ c ∈ clusters, statT ≤ clusterDepth c) :
    get_stackarray clusters statT = .error (.nameError "nclust") := by
  obtain ⟨c, hc, hd⟩ := h
  have hany : (clusters.map (fun c => decide (statT ≤ clusterDepth c))).any id = true := by
    rw [List.any_eq_true]
    exact ⟨_, List.mem_map_of_mem _ hc, by simpa using hd⟩
  unfold get_stackarray recal_hidepth_stat
  simp [hany]

/-- Witness for C3 at a concrete sample: one cluster of depth 10 with
statistical threshold 5. -/
theorem c3_get_stackarray_raises_witness :
    (∃ c ∈ [SCluster.mk [⟨10, [65, 67, 71, 84]⟩]], 5 ≤ clusterDepth c) ∧
    get_stackarray [SCluster.mk [⟨10, [65, 67, 71, 84]⟩]] 5 =
      .error (.nameError "nclust") :=
  ⟨by decide, c3_get_stackarray_raises [SCluster.mk [⟨10, [65, 67, 71, 84]⟩]] 5 (by decide)⟩

/-- C6: a sample with zero clusters at the statistical depth threshold
makes `recal_hidepth_stat` signal insufficient data (the `IPyradError`
raised through the `int(nan)` failure); the spec-modelled stage-4
driver records the sample as skipped and completes the stage for the
remaining samples; and at stage 7 `Step7._collect_stats` raises when
zero loci survive filtering globally. -/
theorem c6_insufficient_data_nonfatal_s4_fatal_s7
    (clusters : List SCluster) (statT : ℕ) (others : List (List SCluster))
    (h : ∀ c ∈ clusters, clusterDepth c < statT) :
    recal_hidepth_stat clusters statT = .error .insufficientData ∧
    step4_screen_sample clusters statT =
      .skipped "No clusts with depth sufficient for statistical basecalling." ∧
    step4_screen (others ++ [clusters]) statT =
      step4_screen others statT ++
        [.skipped "No clusts with depth sufficient for statistical basecalling."] ∧
    collect_stats_check 0 = .error .noLociPassed := by
  have hany : (clusters.map (fun c => decide (statT ≤ clusterDepth c))).any id = false := by
    simp only [List.any_eq_false, List.mem_map]
    rintro b ⟨c, hc, rfl⟩
    simpa using Nat.not_le.mpr (h c hc)
  have hrec : recal_hidepth_stat clusters statT = .error .insufficientData := by
    unfold recal_hidepth_stat
    simp [hany]
  have hscr : step4_screen_sample clusters statT =
      .skipped "No clusts with depth sufficient for statistical basecalling." := by
    unfold step4_screen_sample
    rw [hrec]
  refine ⟨hrec, hscr, ?_, rfl⟩
  unfold step4_screen
  rw [List.map_append]
  simp [hscr]

/-- Witness for C6: a sample whose single cluster has depth 2 against a
statistical threshold of 5, alongside one healthy sample. -/
theorem c6_insufficient_data_nonfatal_s4_fatal_s7_witness :
    (∀ c ∈ [SCluster.mk [⟨2, [65]⟩]], clusterDepth c < 5) ∧
    (recal_hidepth_stat [SCluster.mk [⟨2, [65]⟩]] 5 = .error .insufficientData ∧
     step4_screen_sample [SCluster.mk [⟨2, [65]⟩]] 5 =
       .skipped "No clusts with depth sufficient for statistical basecalling." ∧
     step4_screen ([[SCluster.mk [⟨9, [65]⟩]]] ++ [[SCluster.mk [⟨2, [65]⟩]]]) 5 =
       step4_screen [[SCluster.mk [⟨9, [65]⟩]]] 5 ++
         [.skipped "No clusts with depth sufficient for statistical basecalling."] ∧
     collect_stats_check 0 = .error .noLociPassed) :=
  ⟨by decide,
   c6_insufficient_data_nonfatal_s4_fatal_s7 [SCluster.mk [⟨2, [65]⟩]] 5
     [[SCluster.mk [⟨9, [65]⟩]]] (by decide)⟩

/-- Splitting `tagsize` over the head row. -/
theorem tagSum_cons (r : TagRow) (rest : List TagRow) (t : String) :
    tagSum (r :: rest) t = (if r.tag = t then r.size else 0) + tagSum rest t := by
  by_cases h : r.tag = t <;> simp [tagSum, List.filter_cons, h]

/-- Dropping rows of a foreign tag does not change a tag's size sum. -/
theorem tagSum_filter_ne (rest : List TagRow) (t t0 : String) (h : t ≠ t0) :
    tagSum (rest.filter (fun x => x.tag ≠ t0)) t = tagSum rest t := by
  unfold tagSum
  rw [List.filter_filter]
  congr 2
  apply List.filter_congr
  intro x hx
  by_cases hx1 : x.tag = t <;> simp [hx1, h]

/-- Equation lemma: `keepFirstSized` on the empty list. -/
theorem keepFirstSized_nil (all : List TagRow) : keepFirstSized all [] = [] := by
  rw [keepFirstSized.eq_def]

/-- Equation lemma: `keepFirstSized` on a cons. -/
theorem keepFirstSized_cons (all : List TagRow) (r : TagRow) (rest : List TagRow) :
    keepFirstSized all (r :: rest) =
      { name := r.name, tag := r.tag, size := tagSum all r.tag, seq := r.seq } ::
        keepFirstSized all (rest.filter (fun x => x.tag ≠ r.tag)) := by
  rw [keepFirstSized.eq_def]

/-- Equation lemma: `keepFirstPerTag` on the empty list. -/
theorem keepFirstPerTag_nil : keepFirstPerTag [] = [] := by
  rw [keepFirstPerTag.eq_def]

/-- Equation lemma: `keepFirstPerTag` on a cons. -/
theorem keepFirstPerTag_cons (r : TagRow) (rest : List TagRow) :
    keepFirstPerTag (r :: rest) =
      { name := r.name, tag := r.tag, size := r.size + tagSum rest r.tag,
        seq := r.seq } ::
        keepFirstPerTag (rest.filter (fun x => x.tag ≠ r.tag)) := by
  rw [keepFirstPerTag.eq_def]

/-- The write-back loop of `declone_clusters` keeps exactly the rows
whose tag is not yet seen, first occurrence per tag, sizes drawn from
the full list. -/
theorem declone_go_eq (all : List TagRow) :
    ∀ (l : List TagRow) (seen : List String),
      declone_go all l seen =
        keepFirstSized all (l.filter (fun r => decide (r.tag ∉ seen))) := by
  intro l
  induction l with
  | nil => intro seen; simp [declone_go, keepFirstSized_nil]
  | cons r rest ih =>
    intro seen
    by_cases hmem : r.tag ∈ seen
    · have hdrop : (r :: rest).filter (fun x => decide (x.tag ∉ seen)) =
          rest.filter (fun x => decide (x.tag ∉ seen)) := by
        simp [List.filter_cons, hmem]
      have hfilter : rest.filter (fun x => decide (x.tag ∉ seen)) =
          rest.filter (fun x => decide (x.tag ∉ r.tag :: seen)) := by
        apply List.filter_congr
        intro x hx
        apply decide_eq_decide.mpr
        simp only [List.mem_cons, not_or]
        exact ⟨fun hs => ⟨fun he => hs (he ▸ hmem), hs⟩, fun hs => hs.2⟩
      simp only [declone_go, if_pos hmem]
      rw [ih (r.tag :: seen), hdrop, hfilter]
    · have hkeep : (r :: rest).filter (fun x => decide (x.tag ∉ seen)) =
          r :: rest.filter (fun x => decide (x.tag ∉ seen)) := by
        simp [List.filter_cons, hmem]
      simp only [declone_go, if_neg hmem]
      rw [ih (r.tag :: seen), hkeep, keepFirstSized_cons]
      congr 2
      rw [List.filter_filter]
      apply List.filter_congr
      intro x hx
      by_cases h1 : x.tag = r.tag <;> by_cases h2 : x.tag ∈ seen <;>
        simp [h1, h2]

/-- `keepFirstSized` with a reference list whose tag sums agree with the
working list is the first-per-tag rewrite. -/
theorem keepFirstSized_eq_keepFirstPerTag (all : List TagRow) :
    ∀ (n : ℕ) (l : List TagRow), l.length ≤ n →
      (∀ r ∈ l, tagSum all r.tag = tagSum l r.tag) →
      keepFirstSized all l = keepFirstPerTag l := by
  intro n
  induction n with
  | zero =>
    intro l hl _
    rw [Nat.le_zero, List.length_eq_zero] at hl
    subst hl
    rw [keepFirstSized_nil, keepFirstPerTag_nil]
  | succ n ih =>
    intro l hl hinv
    match l with
    | [] => rw [keepFirstSized_nil, keepFirstPerTag_nil]
    | r :: rest =>
      rw [keepFirstSized_cons, keepFirstPerTag_cons]
      have hhead : tagSum all r.tag = r.size + tagSum rest r.tag := by
        rw [hinv r (List.mem_cons_self r rest), tagSum_cons, if_pos rfl]
      rw [hhead]
      congr 1
      apply ih
      · calc (rest.filter (fun x => x.tag ≠ r.tag)).length
            ≤ rest.length := List.length_filter_le _ _
          _ ≤ n := by simpa using hl
      · intro r2 hr2
        have hr2rest : r2 ∈ rest := List.mem_of_mem_filter hr2
        have hne : r2.tag ≠ r.tag := by
          have := List.of_mem_filter hr2
          simpa using this
        calc tagSum all r2.tag
            = tagSum (r :: rest) r2.tag := hinv r2 (List.mem_cons_of_mem r hr2rest)
          _ = tagSum rest r2.tag := by
              rw [tagSum_cons, if_neg (fun he => hne he.symm), Nat.zero_add]
          _ = tagSum (rest.filter (fun x => x.tag ≠ r.tag)) r2.tag :=
              (tagSum_filter_ne rest r2.tag r.tag hne).symm

/-- On a locus without repeated tags the first-per-tag rewrite is the
identity. -/
theorem keepFirstPerTag_of_nodup :
    ∀ (n : ℕ) (l : List TagRow), l.length ≤ n →
      (l.map (fun r => r.tag)).Nodup → keepFirstPerTag l = l := by
  intro n
  induction n with
  | zero =>
    intro l hl _
    rw [Nat.le_zero, List.length_eq_zero] at hl
    subst hl
    rw [keepFirstPerTag_nil]
  | succ n ih =>
    intro l hl hnd
    match l with
    | [] => rw [keepFirstPerTag_nil]
    | r :: rest =>
      rw [List.map_cons, List.nodup_cons] at hnd
      have hnotin : ∀ x ∈ rest, x.tag ≠ r.tag := by
        intro x hx he
        exact hnd.1 (he ▸ List.mem_map_of_mem (fun r2 => r2.tag) hx)
      have hsum : tagSum rest r.tag = 0 := by
        unfold tagSum
        have hnil : rest.filter (fun x => x.tag = r.tag) = [] := by
          rw [List.filter_eq_nil_iff]
          intro x hx
          simpa using hnotin x hx
        rw [hnil]
        rfl
      have hfilter : rest.filter (fun x => x.tag ≠ r.tag) = rest := by
        rw [List.filter_eq_self]
        intro x hx
        simpa using hnotin x hx
      rw [keepFirstPerTag_cons, hsum, hfilter, Nat.add_zero,
        ih rest (by simpa using hl) hnd.2]

/-- C9 (amended): for every aligned cluster, decloning keeps exactly
the **first-listed** row of each duplicate-tag group — not necessarily
the row with the largest size — and rewrites the kept row's size to the
sum of the sizes in its tag group. -/
theorem c9_declone_keeps_first_row_per_tag (rows : List TagRow) :
    declone_locus rows = keepFirstPerTag rows := by
  unfold declone_locus
  by_cases h : (rows.map (fun r => r.tag)).Nodup
  · rw [if_pos h, keepFirstPerTag_of_nodup rows.length rows le_rfl h]
  · rw [if_neg h, declone_go_eq]
    have hid : rows.filter (fun r => decide (r.tag ∉ ([] : List String))) = rows := by
      rw [List.filter_eq_self]
      intro x hx
      simp
    rw [hid]
    exact keepFirstSized_eq_keepFirstPerTag rows rows.length rows le_rfl
      (fun r _ => rfl)

/-- C9 (counterexample): in a cluster whose first row of the tag group
is **not** the largest (`size=1` before `size=5`), `declone_clusters`
keeps the first row's sequence `AAAA` (with the summed size 6), not the
largest row's `CCCC` that the claim requires. -/
theorem c9_counterexample :
    declone_clusters [[⟨"a", "t", 1, "AAAA"⟩, ⟨"b", "t", 5, "CCCC"⟩]] =
      [[⟨"a", "t", 6, "AAAA"⟩]] ∧
    declone_clusters [[⟨"a", "t", 1, "AAAA"⟩, ⟨"b", "t", 5, "CCCC"⟩]] ≠
      [[⟨"b", "t", 6, "CCCC"⟩]] := by
  constructor <;> decide

/-- Even positions of a cons are the head plus the odd positions of the
tail. -/
theorem evenPositions_cons (x : List Char) (l : List (List Char)) :
    evenPositions (x :: l) = x :: oddPositions l := by
  cases l <;> rfl

/-- Even positions of an interleaving recover the first list. -/
theorem evenPositions_interleave :
    ∀ (hs ss : List (List Char)), hs.length = ss.length →
      evenPositions (interleave hs ss) = hs
  | [], [], _ => rfl
  | h :: hs, s :: ss, hlen => by
    show evenPositions (h :: s :: interleave hs ss) = h :: hs
    rw [evenPositions_cons, oddPositions, List.tail_cons,
      evenPositions_interleave hs ss (by simpa using hlen)]

/-- Odd positions of an interleaving recover the second list. -/
theorem oddPositions_interleave :
    ∀ (hs ss : List (List Char)), hs.length = ss.length →
      oddPositions (interleave hs ss) = ss
  | [], [], _ => rfl
  | h :: hs, s :: ss, hlen => by
    show oddPositions (h :: s :: interleave hs ss) = s :: ss
    rw [oddPositions, List.tail_cons, evenPositions_cons,
      oddPositions_interleave hs ss (by simpa using hlen)]

/-- Parsing the line block of a well-formed cluster recovers the
cluster. -/
theorem mkCluster_clusterLines (c : RCluster)
    (hlen : c.headers.length = c.seqs.length) :
    mkCluster (clusterLines c) = c := by
  unfold mkCluster clusterLines
  have hlen2 : (c.headers.map (fun h => '>' :: h)).length = c.seqs.length := by
    simpa using hlen
  rw [evenPositions_interleave _ _ hlen2, oddPositions_interleave _ _ hlen2,
    List.map_map]
  have hid : c.headers.map ((fun l => l.drop 1) ∘ (fun h => '>' :: h)) =
      c.headers := by
    simp [Function.comp_def]
  rw [hid]

/-- Members of an interleaving come from one of the two lists. -/
theorem mem_interleave :
    ∀ (hs ss : List (List Char)) (x : List Char),
      x ∈ interleave hs ss → x ∈ hs ∨ x ∈ ss
  | [], _, x, hx => by simp [interleave] at hx
  | _ :: _, [], x, hx => by simp [interleave] at hx
  | h :: hs, s :: ss, x, hx => by
    simp only [interleave, List.mem_cons] at hx
    rcases hx with rfl | rfl | hx
    · exact Or.inl (List.mem_cons_self _ _)
    · exact Or.inr (List.mem_cons_self _ _)
    · rcases mem_interleave hs ss x hx with h1 | h1
      · exact Or.inl (List.mem_cons_of_mem _ h1)
      · exact Or.inr (List.mem_cons_of_mem _ h1)

/-- No line of a well-formed cluster's block spells the separator. -/
theorem clusterLines_ne_sep (c : RCluster) (hc : GoodCluster c) :
    ∀ l ∈ clusterLines c, l ≠ sepLine := by
  intro l hl
  rcases mem_interleave _ _ l hl with h1 | h1
  · obtain ⟨h, _, rfl⟩ := List.mem_map.mp h1
    intro he
    exact absurd (List.head_eq_of_cons_eq he) (by decide)
  · exact hc.2.2 l h1

/-- The line block of a well-formed cluster is nonempty. -/
theorem clusterLines_ne_nil (c : RCluster) (hc : GoodCluster c) :
    clusterLines c ≠ [] := by
  obtain ⟨hlen, hne, _⟩ := hc
  match hh : c.headers, hs : c.seqs with
  | [], _ => exact absurd hh hne
  | h :: hs2, [] => rw [hh, hs] at hlen; simp at hlen
  | h :: hs2, s :: ss2 => simp [clusterLines, hh, hs, interleave]

/-- Consuming one cluster block plus the double separator from the
stream. -/
theorem iter_clusters_go_block (rest : List (List Char)) :
    ∀ (lines acc : List (List Char)), (∀ l ∈ lines, l ≠ sepLine) →
      (acc ≠ [] ∨ lines ≠ []) →
      iter_clusters_go (lines ++ sepLine :: sepLine :: rest) acc =
        mkCluster (acc.reverse ++ lines) :: iter_clusters_go rest [] := by
  intro lines
  induction lines with
  | nil =>
    intro acc _ hne
    match acc with
    | [] => rcases hne with h | h <;> exact absurd rfl h
    | a :: as =>
      simp [iter_clusters_go]
  | cons x lines ih =>
    intro acc hsep _
    have hx : x ≠ sepLine := hsep x (List.mem_cons_self _ _)
    show iter_clusters_go (x :: (lines ++ sepLine :: sepLine :: rest)) acc = _
    rw [iter_clusters_go, if_neg hx]
    rw [ih (x :: acc) (fun l hl => hsep l (List.mem_cons_of_mem _ hl))
      (Or.inl (List.cons_ne_nil _ _))]
    rw [List.reverse_cons, List.append_assoc]
    rfl

/-- C10: writing a list of well-formed clusters with the pairwise `//`
separator contract and reading it back with the (spec-modelled)
`iter_clusters` yields the same cluster list. -/
theorem c10_cluster_codec_roundtrip (cs : List RCluster)
    (h : ∀ c ∈ cs, GoodCluster c) :
    iter_clusters (write_clusters cs) = cs := by
  induction cs with
  | nil => rfl
  | cons c cs ih =>
    have hc : GoodCluster c := h c (List.mem_cons_self _ _)
    have hw : write_clusters (c :: cs) =
        clusterLines c ++ sepLine :: sepLine :: write_clusters cs := by
      simp [write_clusters]
    unfold iter_clusters
    rw [hw, iter_clusters_go_block (write_clusters cs) (clusterLines c) []
      (clusterLines_ne_sep c hc) (Or.inr (clusterLines_ne_nil c hc))]
    rw [List.reverse_nil, List.nil_append, mkCluster_clusterLines c hc.1]
    exact congrArg (c :: ·) (ih (fun c2 hc2 => h c2 (List.mem_cons_of_mem _ hc2)))

/-- Witness for C10: two concrete clusters survive the round trip. -/
theorem c10_cluster_codec_roundtrip_witness :
    (∀ c ∈ [RCluster.mk [['a'], ['b']] [['A', 'C'], ['G', 'T']],
            RCluster.mk [['c']] [['T', 'T']]], GoodCluster c) ∧
    iter_clusters (write_clusters
      [RCluster.mk [['a'], ['b']] [['A', 'C'], ['G', 'T']],
       RCluster.mk [['c']] [['T', 'T']]]) =
      [RCluster.mk [['a'], ['b']] [['A', 'C'], ['G', 'T']],
       RCluster.mk [['c']] [['T', 'T']]] :=
  ⟨by decide,
   c10_cluster_codec_roundtrip
     [RCluster.mk [['a'], ['b']] [['A', 'C'], ['G', 'T']],
      RCluster.mk [['c']] [['T', 'T']]] (by decide)⟩

/-- Python's `index(True)` over the non-dash mask finds the length of
the leading dash run. -/
theorem findIdx_nondash (s : List Char) :
    ∀ (i : ℕ), (∃ c ∈ s, c ≠ '-') →
      List.findIdx? id (s.map (fun c => decide (c ≠ '-'))) i =
        some (i + leadingDashes s) := by
  induction s with
  | nil => intro i h; simp at h
  | cons c cs ih =>
    intro i h
    by_cases hc : c = '-'
    · subst hc
      have hcs : ∃ c2 ∈ cs, c2 ≠ '-' := by
        rcases h with ⟨c2, hc2, hne⟩
        rcases List.mem_cons.mp hc2 with rfl | hmem
        · exact absurd rfl hne
        · exact ⟨c2, hmem, hne⟩
      rw [List.map_cons, List.findIdx?_cons]
      rw [if_neg (by simp)]
      rw [ih (i + 1) hcs]
      have hld : leadingDashes ('-' :: cs) = leadingDashes cs + 1 := by
        simp [leadingDashes, List.takeWhile]
      rw [hld]
      exact congrArg some (by omega)
    · rw [List.map_cons, List.findIdx?_cons]
      rw [if_pos (by simpa using hc)]
      have hld : leadingDashes (c :: cs) = 0 := by
        simp [leadingDashes, List.takeWhile, hc]
      rw [hld, Nat.add_zero]

/-- `pyIndexTrue` over the non-dash mask is the leading dash count. -/
theorem pyIndexTrue_nondash (s : List Char) (h : ∃ c ∈ s, c ≠ '-') :
    pyIndexTrue (s.map (fun c => decide (c ≠ '-'))) = some (leadingDashes s) := by
  unfold pyIndexTrue
  rw [findIdx_nondash s 0 h]
  rw [Nat.zero_add]

/-- A pointwise-successful `mapM` over `Option` is the plain `map`. -/
theorem mapM_eq_map_of_some {α β : Type} (f : α → Option β) (g : α → β) :
    ∀ (l : List α), (∀ x ∈ l, f x = some (g x)) → l.mapM f = some (l.map g) := by
  intro l
  induction l with
  | nil => intro _; rfl
  | cons x xs ih =>
    intro h
    rw [List.mapM_cons, h x (List.mem_cons_self _ _),
      ih (fun y hy => h y (List.mem_cons_of_mem _ hy))]
    rfl

/-- C8 (amended): for a GBS-like aligned cluster, the edge trim takes
`left` as the leading dash count of the seed row and `right` as the
alignment width minus the **maximum** (not minimum) trailing-gap count
over the reverse-strand hits; all rows are trimmed to `[left, right)`,
and the bodies become `NNN` when `right ≤ left`. -/
theorem c8_gbs_trim_uses_max_trailing_gaps (rows : List ARow) (seed : ARow)
    (hseed : rows.find? (fun r => oriChar r = '*') = some seed)
    (hseedseq : ∃ c ∈ seed.seq, c ≠ '-')
    (hrev : ∀ r ∈ rows.filter (fun r => oriChar r = '-'), ∃ c ∈ r.seq.reverse, c ≠ '-') :
    gbs_trim rows = some (
      (fun L R => rows.map (fun r =>
        { header := r.header
          seq := if L < R then (r.seq.drop L).take (R - L) else ['N', 'N', 'N'] }))
      (leadingDashes seed.seq)
      (seed.seq.length -
        (if (rows.filter (fun r => oriChar r = '-')).isEmpty then 0
         else pyMax ((rows.filter (fun r => oriChar r = '-')).map
           (fun r => trailingDashes r.seq))))) := by
  unfold gbs_trim
  rw [hseed]
  simp only [Option.bind_eq_bind, Option.some_bind]
  rw [pyIndexTrue_nondash seed.seq hseedseq]
  simp only [Option.some_bind]
  rw [mapM_eq_map_of_some _ (fun r => trailingDashes r.seq) _
    (fun r hr => pyIndexTrue_nondash r.seq.reverse (hrev r hr))]
  simp only [Option.some_bind]
  by_cases hif : leadingDashes seed.seq <
      seed.seq.length -
        (if (rows.filter (fun r => oriChar r = '-')).isEmpty then 0
         else pyMax ((rows.filter (fun r => oriChar r = '-')).map
           (fun r => trailingDashes r.seq)))
  · rw [if_pos hif]
    exact congrArg some (List.map_congr_left (fun r _ => by rw [if_pos hif]))
  · rw [if_neg hif]
    exact congrArg some (List.map_congr_left (fun r _ => by rw [if_neg hif]))

/-- Witness for C8 (amended) at a concrete cluster: seed `AAAAAA`,
reverse hits with 1 and 3 trailing dashes; the trim keeps `[0, 3)`. -/
theorem c8_gbs_trim_uses_max_trailing_gaps_witness :
    ([ARow.mk ["s", "size=4", "*"] ['A', 'A', 'A', 'A', 'A', 'A'],
      ARow.mk ["h1", "size=2", "-"] ['A', 'A', 'A', 'A', 'A', '-'],
      ARow.mk ["h2", "size=1", "-"] ['A', 'A', 'A', '-', '-', '-']].find?
        (fun r => oriChar r = '*') =
      some (ARow.mk ["s", "size=4", "*"] ['A', 'A', 'A', 'A', 'A', 'A'])) ∧
    gbs_trim
      [ARow.mk ["s", "size=4", "*"] ['A', 'A', 'A', 'A', 'A', 'A'],
       ARow.mk ["h1", "size=2", "-"] ['A', 'A', 'A', 'A', 'A', '-'],
       ARow.mk ["h2", "size=1", "-"] ['A', 'A', 'A', '-', '-', '-']] =
      some [ARow.mk ["s", "size=4", "*"] ['A', 'A', 'A'],
            ARow.mk ["h1", "size=2", "-"] ['A', 'A', 'A'],
            ARow.mk ["h2", "size=1", "-"] ['A', 'A', 'A']] := by
  refine ⟨by decide, ?_⟩
  rw [c8_gbs_trim_uses_max_trailing_gaps _
    (ARow.mk ["s", "size=4", "*"] ['A', 'A', 'A', 'A', 'A', 'A'])
    (by decide) (by decide) (by decide)]
  decide

/-- C8 (counterexample): on the same cluster the claim's rule —
alignment width minus the **minimum** trailing-gap count — would trim
to `[0, 5)`; the code trims to `[0, 3)`. -/
theorem c8_counterexample :
    gbs_trim
      [ARow.mk ["s", "size=4", "*"] ['A', 'A', 'A', 'A', 'A', 'A'],
       ARow.mk ["h1", "size=2", "-"] ['A', 'A', 'A', 'A', 'A', '-'],
       ARow.mk ["h2", "size=1", "-"] ['A', 'A', 'A', '-', '-', '-']] ≠
      some [ARow.mk ["s", "size=4", "*"] ['A', 'A', 'A', 'A', 'A'],
            ARow.mk ["h1", "size=2", "-"] ['A', 'A', 'A', 'A', 'A'],
            ARow.mk ["h2", "size=1", "-"] ['A', 'A', 'A', '-', '-']] ∧
    min (trailingDashes ['A', 'A', 'A', 'A', 'A', '-'])
        (trailingDashes ['A', 'A', 'A', '-', '-', '-']) = 1 ∧
    (6 : ℕ) - 1 = 5 := by
  refine ⟨?_, by decide, by decide⟩
  decide

set_option maxRecDepth 100000 in
/-- C1: a column with counts `n_A = 3 > n_C = 2` whose biallelic depth
5 lies between the majority threshold (5) and the statistical threshold
(10).  The claim requires the majority base `A` (65) with no binomial
test; the code's majority-rule branch lacks a `continue`, so
`get_binom` runs anyway (posterior ≈ 0.998 ≥ 0.95, heterozygous branch
wins) and the emitted call is the IUPAC heterozygote `M` (77). -/
theorem c1_statistical_call_overwrites_majority_rule :
    new_base_caller [[65], [65], [65], [67], [67]] 5 10 (1/100) (1/1000) =
      ([77], false) ∧
    majority_rule_call 3 2 65 67 = 65 ∧
    (77 : ℕ) ≠ 65 := by
  have hs : colStats [65, 65, 65, 67, 67] = (65, 3, 67, 2, 0, 0) := by decide
  have hscreen : colScreen [65, 65, 65, 67, 67] = [65, 65, 65, 67, 67] := by decide
  have hcol : new_base_caller_col [65, 65, 65, 67, 67] 5 10 (1/100) (1/1000) =
      (77, false) := by
    simp only [new_base_caller_col, hscreen, hs]
    norm_num [get_binom, binomPmf, trans, Nat.choose]
  have hmap : List.map (fun r => r.getD 0 0) [[65], [65], [65], [67], [67]] =
      [65, 65, 65, 67, 67] := by decide
  refine ⟨?_, by decide, by decide⟩
  simp only [new_base_caller, List.headD_cons, List.length_cons,
    List.length_nil, List.range_succ, List.range_zero, List.nil_append,
    List.map_cons, List.map_nil, List.getD_cons_zero, hmap, hcol,
    List.any_cons, List.any_nil]
  rfl

set_option maxRecDepth 100000 in
/-- Evaluation helper: the repeat mask keeps the bad cluster's rows
unchanged. -/
theorem mask_repeats_exBad :
    mask_repeats [[65], [65], [65], [65], [78], [78]] =
      some [[65], [65], [65], [65], [78], [78]] := by
  unfold mask_repeats colVals npSize
  norm_num [List.range_succ, List.count_cons, List.count_nil]

set_option maxRecDepth 100000 in
/-- Evaluation helper: the repeat mask keeps the good cluster's rows
unchanged. -/
theorem mask_repeats_exGood :
    mask_repeats [[65, 65], [65, 65], [65, 65], [65, 65], [65, 65]] =
      some [[65, 65], [65, 65], [65, 65], [65, 65], [65, 65]] := by
  unfold mask_repeats colVals npSize
  norm_num [List.range_succ, List.count_cons, List.count_nil]

set_option maxRecDepth 100000 in
/-- Evaluation helper: hetero/N screening of the good cluster's `AA`
consensus passes with no heterozygous site. -/
theorem filter_heteros_exGood :
    filter_heteros exConsParams [65, 65] = some [] := by
  unfold filter_heteros exConsParams
  norm_num [List.range_succ, isHeteroByte, List.count_cons, List.count_nil]

set_option maxRecDepth 100000 in
/-- Evaluation helper: the full per-cluster pipeline on the bad cluster
raises the `KeyError`. -/
theorem process_locus_exBad :
    process_locus exConsParams exBadCluster = .error (.keyError "mindepth") := by
  have h0 : locus_rows exBadCluster = [[65], [65], [65], [65], [78], [78]] := by
    decide
  have h2 : filter_mindepth exConsParams [[65], [65], [65], [65], [78], [78]] =
      some [[65], [65], [65], [65], [78], [78]] := by decide
  have h3 : build_consens exConsParams [[65], [65], [65], [65], [78], [78]] =
      .error (.keyError "mindepth") := by decide
  simp only [process_locus, h0, mask_repeats_exBad, h2, h3]

set_option maxRecDepth 100000 in
/-- Evaluation helper: the full per-cluster pipeline emits the good
cluster with its depth table. -/
theorem process_locus_exGood :
    process_locus exConsParams exGoodCluster =
      .ok (some { consens := [65, 65], catg := [[0, 5, 0, 0], [0, 5, 0, 0]],
                  nalleles := 1 }) := by
  have h0 : locus_rows exGoodCluster =
      [[65, 65], [65, 65], [65, 65], [65, 65], [65, 65]] := by decide
  have h2 : filter_mindepth exConsParams
      [[65, 65], [65, 65], [65, 65], [65, 65], [65, 65]] =
      some [[65, 65], [65, 65], [65, 65], [65, 65], [65, 65]] := by decide
  have h3 : build_consens exConsParams
      [[65, 65], [65, 65], [65, 65], [65, 65], [65, 65]] =
      .ok (some ([65, 65], [[65, 65], [65, 65], [65, 65], [65, 65], [65, 65]])) := by
    decide
  have h5 : filter_alleles exConsParams [65, 65]
      [[65, 65], [65, 65], [65, 65], [65, 65], [65, 65]] [] = some 1 := by decide
  have h6 : collect_catg [[65, 65], [65, 65], [65, 65], [65, 65], [65, 65]] 2 =
      [[0, 5, 0, 0], [0, 5, 0, 0]] := by decide
  simp only [process_locus, h0, mask_repeats_exGood, h2, h3,
    filter_heteros_exGood, h5, List.length_cons, List.length_nil, h6]

/-- C7: a 6-row cluster (four `A` rows, two `N` rows) passes the
mindepth filter but every site has non-masked depth 4 < 5, so the
consensus is all `N`.  The claim says the cluster is recorded under the
*depth* filter and processing continues; the source instead executes
`self.filters["mindepth"] += 1` on a dict without that key, raising a
`KeyError` that aborts the whole chunk — a following healthy cluster
(which alone would be emitted) produces nothing. -/
theorem c7_all_n_consensus_raises_key_error :
    process_locus exConsParams exBadCluster = .error (.keyError "mindepth") ∧
    process_chunk exConsParams [exBadCluster, exGoodCluster] =
      .error (.keyError "mindepth") ∧
    process_chunk exConsParams [exGoodCluster] =
      .ok [{ consens := [65, 65], catg := [[0, 5, 0, 0], [0, 5, 0, 0]],
             nalleles := 1 }] := by
  refine ⟨process_locus_exBad, ?_, ?_⟩
  · unfold process_chunk
    rw [process_locus_exBad]
  · unfold process_chunk
    rw [process_locus_exGood]
    rfl

/-- Filtering a replicated list by a predicate its element satisfies
keeps it whole. -/
theorem filter_replicate_of_true {α : Type} {p : α → Bool} {a : α}
    (hp : p a = true) (n : ℕ) :
    (List.replicate n a).filter p = List.replicate n a := by
  induction n with
  | zero => rfl
  | succ m ih => rw [List.replicate_succ, List.filter_cons, if_pos hp, ih]

/-- Every element of a replicated list satisfies a predicate its
element satisfies. -/
theorem all_replicate_of_true {α : Type} {p : α → Bool} {a : α}
    (hp : p a = true) (n : ℕ) :
    (List.replicate n a).all p = true := by
  induction n with
  | zero => rfl
  | succ m ih => rw [List.replicate_succ, List.all_cons, hp, ih]; rfl

/-- No element of a replicated list satisfies a predicate its element
fails. -/
theorem any_replicate_of_false {α : Type} {p : α → Bool} {a : α}
    (hp : p a = false) (n : ℕ) :
    (List.replicate n a).any p = false := by
  induction n with
  | zero => rfl
  | succ m ih => rw [List.replicate_succ, List.any_cons, hp, ih]; rfl

/-- Folding the insert-if-absent step over copies of an element already
present changes nothing. -/
theorem firstKeys_fold_mem (x : List ℕ) :
    ∀ (k : ℕ) (acc : List (List ℕ)), x ∈ acc →
      List.foldl (fun acc2 y => if y ∈ acc2 then acc2 else acc2 ++ [y]) acc
        (List.replicate k x) = acc := by
  intro k
  induction k with
  | zero => intro acc _; rfl
  | succ m ih =>
    intro acc hacc
    rw [List.replicate_succ, List.foldl_cons, if_pos hacc, ih acc hacc]

/-- The distinct patterns of a nonempty replicated list form the
singleton of its element. -/
theorem firstKeys_replicate (n : ℕ) (hn : 0 < n) (x : List ℕ) :
    firstKeys (List.replicate n x) = [x] := by
  obtain ⟨m, rfl⟩ : ∃ m, n = m + 1 := ⟨n - 1, by omega⟩
  unfold firstKeys
  rw [List.replicate_succ, List.foldl_cons]
  rw [if_neg (List.not_mem_nil x), List.nil_append]
  exact firstKeys_fold_mem x m [x] (List.mem_singleton_self x)

set_option maxRecDepth 100000 in
/-- Evaluation helper: the repeat mask keeps a uniform `AA` matrix of
any positive depth unchanged. -/
theorem mask_repeats_replicate (n : ℕ) (hn : 0 < n) :
    mask_repeats (List.replicate n [65, 65]) =
      some (List.replicate n [65, 65]) := by
  obtain ⟨m, rfl⟩ : ∃ m, n = m + 1 := ⟨n - 1, by omega⟩
  unfold mask_repeats colVals npSize
  norm_num [List.head?_replicate, List.length_replicate, List.map_replicate,
    List.count_replicate, List.range_succ, List.sum_replicate,
    any_replicate_of_false, smul_eq_mul, List.filter_cons,
    List.cons_append, List.nil_append, List.getElem?_cons_zero,
    List.getElem?_cons_succ, Option.getD_some]

/-- Evaluation helper: the mindepth screen passes a uniform matrix
whose depth is within the bounds. -/
theorem filter_mindepth_replicate (n : ℕ) (h5 : 5 ≤ n) (hm : n ≤ 100000) :
    filter_mindepth exConsParams (List.replicate n [65, 65]) =
      some (List.replicate n [65, 65]) := by
  unfold filter_mindepth exConsParams
  rw [List.length_replicate]
  exact if_pos ⟨h5, hm⟩

set_option maxRecDepth 100000 in
/-- Evaluation helper: the genotype caller on a uniform `AA` matrix of
depth at least 5 emits `AA` via the all-agree branch, with no
tri-allele flag and no trimming. -/
theorem build_consens_replicate (n : ℕ) (h5 : 5 ≤ n) :
    build_consens exConsParams (List.replicate n [65, 65]) =
      .ok (some ([65, 65], List.replicate n [65, 65])) := by
  obtain ⟨m, rfl⟩ : ∃ m, n = m + 1 := ⟨n - 1, by omega⟩
  have hcol : new_base_caller_col (List.replicate (m + 1) 65) 5 10
      exConsParams.heteroEst exConsParams.errorEst = (65, false) := by
    unfold new_base_caller_col colScreen
    rw [filter_replicate_of_true (by decide) (m + 1)]
    rw [if_neg (by rw [List.length_replicate]; omega)]
    rw [List.replicate_succ, List.headD_cons, ← List.replicate_succ]
    rw [all_replicate_of_true (by decide) (m + 1)]
    rfl
  have hncols : (List.replicate (m + 1) ([65, 65] : List ℕ)).headD [] =
      [65, 65] := by
    rw [List.replicate_succ, List.headD_cons]
  have hcall : new_base_caller (List.replicate (m + 1) [65, 65]) 5 10
      exConsParams.heteroEst exConsParams.errorEst = ([65, 65], false) := by
    unfold new_base_caller
    simp only [hncols, List.length_cons, List.length_nil, List.range_succ,
      List.range_zero, List.nil_append, List.cons_append, List.map_cons,
      List.map_nil, List.map_replicate, List.getD_cons_zero,
      List.getD_cons_succ, hcol, List.any_cons, List.any_nil]
    rfl
  unfold build_consens
  rw [show exConsParams.minDepthMajrule = 5 from rfl,
    show exConsParams.minDepthStatistical = 10 from rfl, hcall]
  simp only [List.length_cons, List.length_nil, List.range_succ,
    List.range_zero, List.nil_append, List.filter_cons, List.filter_nil,
    List.getD_cons_zero, List.getD_cons_succ]
  norm_num [pyMin, pyMax, List.map_replicate]

set_option maxRecDepth 100000 in
/-- Evaluation helper: allele inference on a uniform matrix with no
heterozygous site counts a single haplotype pattern. -/
theorem filter_alleles_replicate (n : ℕ) (hn : 0 < n) :
    filter_alleles exConsParams [65, 65] (List.replicate n [65, 65]) [] =
      some 1 := by
  unfold filter_alleles
  rw [if_neg (by decide)]
  simp only [List.map_nil, List.map_replicate]
  rw [filter_replicate_of_true (by decide) n,
    filter_replicate_of_true (by decide) n,
    firstKeys_replicate n hn []]
  rfl

/-- Evaluation helper: the stored depth table of a uniform `AA` matrix
holds the full depth in the `A` column of both sites. -/
theorem collect_catg_replicate (n : ℕ) :
    collect_catg (List.replicate n [65, 65]) 2 =
      [[0, n, 0, 0], [0, n, 0, 0]] := by
  unfold collect_catg colVals
  simp only [List.range_succ, List.range_zero, List.nil_append,
    List.map_cons, List.map_nil, List.map_replicate, List.getD_cons_zero,
    List.getD_cons_succ, List.count_replicate]
  norm_num

set_option maxRecDepth 100000 in
/-- Evaluation helper: the per-cluster pipeline on a single
dereplicated `AA` read of any multiplicity `5 ≤ n ≤ 100000` emits the
`AA` consensus with per-site `A` depth `n`. -/
theorem process_locus_uniform (n : ℕ) (h5 : 5 ≤ n) (hm : n ≤ 100000) :
    process_locus exConsParams [(n, [65, 65])] =
      .ok (some { consens := [65, 65], catg := [[0, n, 0, 0], [0, n, 0, 0]],
                  nalleles := 1 }) := by
  have h0 : locus_rows [(n, [65, 65])] = List.replicate n [65, 65] := by
    simp [locus_rows]
  simp only [process_locus, h0, mask_repeats_replicate n (by omega),
    filter_mindepth_replicate n h5 hm, build_consens_replicate n h5,
    filter_heteros_exGood, filter_alleles_replicate n (by omega),
    List.length_cons, List.length_nil, collect_catg_replicate n]

/-- C5: the source computes the row cap (65,500 reads) and the column
cap (`max_frag`) into a dead local (`iter_process_chunks` lines
146-149) and hands the untrimmed matrix on, so a cluster with 65,501
replicate reads is emitted with `base_depths` rows summing to 65,501 >
65,500, violating the claimed bound (the `|sequence| =
base_depths.shape[0]` half does hold: both are 2 here).  The capped
matrix the dead store holds would have satisfied the bound. -/
theorem c5_base_depths_exceed_cap :
    process_locus exConsParams exDeepCluster =
      .ok (some { consens := [65, 65],
                  catg := [[0, 65501, 0, 0], [0, 65501, 0, 0]],
                  nalleles := 1 }) ∧
    ([0, 65501, 0, 0] : List ℕ).sum = 65501 ∧
    65500 < 65501 ∧
    ([65, 65] : List ℕ).length =
      ([[0, 65501, 0, 0], [0, 65501, 0, 0]] : List (List ℕ)).length ∧
    (locus_rows_capped exDeepCluster 2).length = 65500 := by
  refine ⟨process_locus_uniform 65501 (by omega) (by omega), by decide,
    by omega, by decide, ?_⟩
  have h0 : locus_rows exDeepCluster = List.replicate 65501 [65, 65] := by
    unfold locus_rows exDeepCluster
    rw [List.flatMap_cons, List.flatMap_nil, List.append_nil]
  unfold locus_rows_capped
  rw [h0, List.length_map, List.length_take, List.length_replicate]
  omega

/-- C2: the claim states the formula implemented by the older
`olikelihood2` (and by the spec), but the active `nlikelihood2` swaps
the two binomial success rates: it gives `0.5` to the `T`-trial
binomial and `2E/3` to the pair-split binomial.  At the site pattern
`(4,0,0,0)` with uniform base frequencies and `E = 3/8` the two
disagree: `257/8192` versus `97/8192`. -/
theorem c2_nlikelihood2_swaps_binomial_rates :
    olikelihood2 (3/8) exFreqs exPattern = lik2Spec (3/8) exFreqs exPattern ∧
    lik2Spec (3/8) exFreqs exPattern = 97/8192 ∧
    nlikelihood2 (3/8) exFreqs exPattern = 257/8192 ∧
    nlikelihood2 (3/8) exFreqs exPattern ≠ lik2Spec (3/8) exFreqs exPattern := by
  refine ⟨?_, ?_, ?_, ?_⟩ <;>
    norm_num [nlikelihood2, olikelihood2, lik2Spec, binomPmf, basePairs,
      patternTotal, fourTerm, exPattern, exFreqs, Nat.choose]

end Ipyrad
